import Mathlib

/-!
Shallow embedding of the control loop of the ATtiny85 PhoneChargeGuard
firmware (src/software/PhoneChargeGuard.ino, v1.2).  Machine integers are
modelled as naturals reduced modulo the C type width at exactly the places
the C program stores into a fixed-width variable: `% U16` for `uint16_t`,
`% U32` for `uint32_t`.
-/

namespace PhoneChargeGuard

/-- 2^16, the modulus of a C `uint16_t`. -/
def U16 : ℕ := 65536

/-- 2^32, the modulus of a C `uint32_t`. -/
def U32 : ℕ := 4294967296

/-! Section: Limit tables (source lines 106-109)

`limit_val[] = {3000, 15000, 200, 180}` (startup defaults, mutable),
`limit_min[] = {500, 1000, 100, 10}`, `limit_max[] = {10000, 50000, 3000, 590}`,
`limit_inc[] = {100, 500, 100, 10}`, indexed by the limit kind
(0 = mAh, 1 = mWh, 2 = mA, 3 = min). -/

/-- Startup default of `limit_val[]` (line 106):
`{3000, 15000, 200, 180}`. -/
def limit_val0 : ℕ → ℕ
  | 0 => 3000
  | 1 => 15000
  | 2 => 200
  | 3 => 180
  | _ => 0

/-- `limit_min[]` (line 107): `{500, 1000, 100, 10}`. -/
def limit_min : ℕ → ℕ
  | 0 => 500
  | 1 => 1000
  | 2 => 100
  | 3 => 10
  | _ => 0

/-- `limit_max[]` (line 108): `{10000, 50000, 3000, 590}`. -/
def limit_max : ℕ → ℕ
  | 0 => 10000
  | 1 => 50000
  | 2 => 3000
  | 3 => 590
  | _ => 0

/-- `limit_inc[]` (line 109): `{100, 500, 100, 10}`. -/
def limit_inc : ℕ → ℕ
  | 0 => 100
  | 1 => 500
  | 2 => 100
  | 3 => 10
  | _ => 0

/-! Section: Accumulator (source lines 563-571) -/

/-- The accumulator state: `capacity` (uAh), `energy` (uWh) and
`chargetime` (ms), all `uint32_t` variables of `main`. -/
structure Totals where
  capacity : ℕ
  energy : ℕ
  chargetime : ℕ
  deriving Repr, DecidableEq

/-- Line 569: `power = (uint32_t)voltage * current / 1000;`.  The product is
computed in 32-bit arithmetic but the result is stored in the `uint16_t`
variable `power`, hence the reduction modulo 2^16. -/
def power_mW (voltage current : ℕ) : ℕ := voltage * current / 1000 % U16

/-- One integration step, lines 563 and 569-571 of the main loop:
`if(isCharging) chargetime += interval;`,
`capacity += interval * current / 3600;`,
`energy += interval * power / 3600;`.
The products `interval * current` and `interval * power` are `uint32_t`
arithmetic, as are the three running sums. -/
def integrate (voltage current interval : ℕ) (isCharging : Bool) (t : Totals) :
    Totals where
  capacity := (t.capacity + interval * current % U32 / 3600) % U32
  energy := (t.energy + interval * power_mW voltage current % U32 / 3600) % U32
  chargetime := if isCharging then (t.chargetime + interval) % U32 else t.chargetime

/-- Lines 564-565: `seconds = chargetime / 1000;` stored into the `uint16_t`
variable `seconds`, then `if(seconds > 35999) seconds = 35999;`. -/
def secondsOf (chargetime : ℕ) : ℕ :=
  let s := chargetime / 1000 % U16
  if 35999 < s then 35999 else s

/-- Line 566: `minutes = seconds / 60;`. -/
def minutesOf (chargetime : ℕ) : ℕ := secondsOf chargetime / 60

/-! Section: Limit policy (source lines 574-587)

The `switch(limit)` block is entered only while `isCharging` is set; it can
clear `isCharging` (stop charging) and, for the mA kind, re-arm
`limitmillis`.  `checkLimit` returns the pair
(new `isCharging`, new `limitmillis`). -/

/-- The `switch(limit)` of lines 575-585, evaluated while charging:
case 0 stops when `capacity / 1000 >= limit_val[0]`;
case 1 stops when `energy / 1000 >= limit_val[1]`;
case 2: `if(current < limit_val[2]) { if(nowmillis > limitmillis)
isCharging = 0; } else limitmillis = nowmillis + 5000;`
(the sum `nowmillis + 5000` is `uint32_t` arithmetic);
case 3 stops when `minutes >= limit_val[3]`. -/
def checkLimit (limit : ℕ) (vals : ℕ → ℕ)
    (capacity energy current minutes nowmillis limitmillis : ℕ) : Bool × ℕ :=
  match limit with
  | 0 => (if vals 0 ≤ capacity / 1000 then false else true, limitmillis)
  | 1 => (if vals 1 ≤ energy / 1000 then false else true, limitmillis)
  | 2 =>
    if current < vals 2 then
      (if limitmillis < nowmillis then false else true, limitmillis)
    else
      (true, (nowmillis + 5000) % U32)
  | 3 => (if vals 3 ≤ minutes then false else true, limitmillis)
  | _ => (true, limitmillis)

/-! Section: Millis interval (source lines 560-562) -/

/-- Line 561: `interval = nowmillis - lastmillis;`, the `uint32_t`
subtraction `(now - last) mod 2^32`, for `now, last < 2^32`. -/
def elapsed (now last : ℕ) : ℕ := (now + U32 - last) % U32

/-! Section: Limit value adjustment (source lines 599-607) -/

/-- The body of `KEY_INC` (lines 600-601), acting on the active limit value:
`if(limit_val[limit] < limit_max[limit]) limit_val[limit] +=
limit_inc[limit];` — the `+=` is `uint16_t` arithmetic. -/
def adjInc (k v : ℕ) : ℕ :=
  if v < limit_max k then (v + limit_inc k) % U16 else v

/-- The body of `KEY_DEC` (lines 605-606):
`if(limit_val[limit] > limit_min[limit]) limit_val[limit] -=
limit_inc[limit];` — the `-=` is `uint16_t` arithmetic. -/
def adjDec (k v : ℕ) : ℕ :=
  if limit_min k < v then (v + U16 - limit_inc k) % U16 else v

/-- An INCREASE or DECREASE button event. -/
inductive Adj where
  | inc
  | dec
  deriving Repr, DecidableEq

/-- Dispatch of one adjustment event on the active limit value. -/
def adjust (k : ℕ) : Adj → ℕ → ℕ
  | Adj.inc => adjInc k
  | Adj.dec => adjDec k

/-- Apply a sequence of INCREASE/DECREASE events to limit kind `k`,
starting from the stored default `limit_val0 k`. -/
def applyAdjs (k : ℕ) (evs : List Adj) : ℕ :=
  evs.foldl (fun v e => adjust k e v) (limit_val0 k)

/-- Invariant of an active limit value: it lies between the kind's
minimum and maximum, and its distance to either bound is a multiple of
the kind's step (true of the stored defaults, preserved by every
adjustment). -/
def goodVal (k v : ℕ) : Prop :=
  limit_min k ≤ v ∧ v ≤ limit_max k ∧
    limit_inc k ∣ limit_max k - v ∧ limit_inc k ∣ v - limit_min k

/-! Section: Button handling (source lines 590-618)

`LoopState` gathers the RAM variables the button `switch` touches: the
globals `limit` and `showValue`, the array `limit_val[]` (as the function
`vals`), and the locals `isCharging`, `lastbutton` and `limitmillis` of
`main`, plus the state of the ENABLE output pin.  The `EEPROM_update()`
call in the START branch writes only to EEPROM (modelled separately below)
and changes none of these variables. -/

structure LoopState where
  limit : ℕ
  showValue : ℕ
  isCharging : Bool
  vals : ℕ → ℕ
  lastbutton : ℕ
  limitmillis : ℕ
  enable : Bool

/-- Button numbers of the source `enum` (line 103):
`NO_KEY = 0, KEY_SELECT = 1, KEY_INC = 2, KEY_DEC = 3, KEY_START = 4`. -/
def KEY_SELECT : ℕ := 1

/-- `KEY_INC` of the source `enum`. -/
def KEY_INC : ℕ := 2

/-- `KEY_DEC` of the source `enum`. -/
def KEY_DEC : ℕ := 3

/-- `KEY_START` of the source `enum`. -/
def KEY_START : ℕ := 4

/-- The `switch(button)` of lines 591-617 followed by
`lastbutton = button;` (line 618).  `limit` and `showValue` are `uint8_t`
globals, so their `++` wraps modulo 2^8 before the explicit wrap tests
`if(limit > 3) limit = 0;` and `if(showValue > 2) showValue = 0;`.
The START branch toggles `isCharging`, drives the ENABLE pin accordingly
and re-arms `limitmillis = nowmillis + 5000;` (`uint32_t` arithmetic). -/
def buttonStep (nowmillis button : ℕ) (s : LoopState) : LoopState :=
  let s1 :=
    if button = KEY_SELECT then
      if button ≠ s.lastbutton then
        let sv := if s.isCharging then (s.showValue + 1) % 256 else s.showValue
        let li := if s.isCharging then s.limit else (s.limit + 1) % 256
        let li := if 3 < li then 0 else li
        let sv := if 2 < sv then 0 else sv
        { s with limit := li, showValue := sv }
      else s
    else if button = KEY_INC then
      if s.isCharging then s
      else { s with vals := Function.update s.vals s.limit (adjInc s.limit (s.vals s.limit)) }
    else if button = KEY_DEC then
      if s.isCharging then s
      else { s with vals := Function.update s.vals s.limit (adjDec s.limit (s.vals s.limit)) }
    else if button = KEY_START then
      if button ≠ s.lastbutton then
        let c := !s.isCharging
        { s with isCharging := c, enable := c, limitmillis := (nowmillis + 5000) % U32 }
      else s
    else s
  { s1 with lastbutton := button }

/-- A concrete startup state for evaluating the button logic: paused,
mAh kind selected, default limit values, no button previously pressed. -/
def demoState : LoopState where
  limit := 0
  showValue := 0
  isCharging := false
  vals := limit_val0
  lastbutton := 0
  limitmillis := 0
  enable := false

/-! Section: EEPROM settings (source lines 465-483) -/

/-- `EEPROM_IDENT` (line 96): `0xA76D`. -/
def EEPROM_IDENT : ℕ := 0xA76D

/-- The user settings held in RAM: the `limit_val[]` array and the
`limit` and `showValue` globals. -/
structure Settings where
  vals : ℕ → ℕ
  limit : ℕ
  showValue : ℕ

/-- The model of the EEPROM contents: the identifier word at address 0
and the stored copies of the settings. -/
structure Eeprom where
  ident : ℕ
  vals : ℕ → ℕ
  limit : ℕ
  showValue : ℕ

/-- The startup values of the settings globals: `limit_val[]` holds the
compile-time defaults of line 106, `limit = 0`, `showValue = 0`
(lines 99-100). -/
def defaultSettings : Settings where
  vals := limit_val0
  limit := 0
  showValue := 0

/-- `EEPROM_update()` (lines 465-469): write the current settings into
the EEPROM (the identifier word is left alone). -/
def EEPROM_update (g : Settings) (e : Eeprom) : Eeprom :=
  { e with vals := g.vals, limit := g.limit, showValue := g.showValue }

/-- `EEPROM_get()` (lines 472-483): if the stored identifier equals
`EEPROM_IDENT`, load all settings from the EEPROM; otherwise write the
identifier and persist the current (startup-default) settings via
`EEPROM_update()`.  Returns (settings after the call, EEPROM after the
call). -/
def EEPROM_get (g : Settings) (e : Eeprom) : Settings × Eeprom :=
  if e.ident = EEPROM_IDENT then
    ({ vals := e.vals, limit := e.limit, showValue := e.showValue }, e)
  else
    (g, EEPROM_update g { e with ident := EEPROM_IDENT })

/-! Section: Button ADC decoding (source lines 490, 500-507) -/

/-- `THRESHOLDS[]` (line 490): `{896, 726, 597, 256, 0}`. -/
def THRESHOLDS : List ℕ := [896, 726, 597, 256, 0]

/-- The scan loop of `readButton` (line 505):
`while(raw < pgm_read_word(&THRESHOLDS[button])) button++;`.
Reading past the end of the table is modelled by `none`. -/
def scanButton (raw : ℕ) : ℕ → List ℕ → Option ℕ
  | _, [] => none
  | b, t :: ts => if raw < t then scanButton raw (b + 1) ts else some b

/-- `readButton` (lines 500-507) applied to the raw ADC sample:
scan `THRESHOLDS` from index 0 and return the first index whose
threshold is not above `raw`. -/
def readButton (raw : ℕ) : Option ℕ := scanButton raw 0 THRESHOLDS

/-! Section: Theorems -/

/-- C8: the per-cycle elapsed time is the unsigned 32-bit subtraction
`nowmillis - lastmillis`, which recovers the true elapsed time across
counter wraparound whenever it is below 2^32; in particular for
`last = 4294967290` and `now = 5` it yields 11, not a huge value. -/
theorem C8_wraparound :
    (∀ t d : ℕ, t < U32 → d < U32 → elapsed ((t + d) % U32) t = d)
    ∧ elapsed 5 4294967290 = 11 := by
  constructor
  · intro t d ht hd
    simp only [elapsed, U32] at *
    omega
  · decide

/-- Witness for C8 at the wraparound instant of the claim:
`t = 4294967290` and true elapsed `d = 11` give `now = 5`. -/
theorem C8_wraparound_witness : elapsed ((4294967290 + 11) % U32) 4294967290 = 11 :=
  C8_wraparound.1 4294967290 11 (by decide) (by decide)

/-- C10: for every raw ADC reading the threshold scan of `readButton`
terminates inside the table (it never runs past the final entry, which
is 0) and yields a button identifier in {0,1,2,3,4}. -/
theorem C10_button_decoder_safe (raw : ℕ) :
    ∃ b, readButton raw = some b ∧ b ≤ 4 := by
  by_cases h1 : raw < 896
  case neg => exact ⟨0, by simp [readButton, THRESHOLDS, scanButton, h1], by omega⟩
  by_cases h2 : raw < 726
  case neg => exact ⟨1, by simp [readButton, THRESHOLDS, scanButton, h1, h2], by omega⟩
  by_cases h3 : raw < 597
  case neg => exact ⟨2, by simp [readButton, THRESHOLDS, scanButton, h1, h2, h3], by omega⟩
  by_cases h4 : raw < 256
  case neg =>
    exact ⟨3, by simp [readButton, THRESHOLDS, scanButton, h1, h2, h3, h4], by omega⟩
  exact ⟨4, by simp [readButton, THRESHOLDS, scanButton, h1, h2, h3, h4], by omega⟩

/-- C5: while charging with the mAh kind (0) the policy stops charging
exactly when `capacity / 1000 >= limit_val[0]`, and with the mWh kind (1)
exactly when `energy / 1000 >= limit_val[1]` (truncating division). -/
theorem C5_threshold_stop (vals : ℕ → ℕ) (cap en cur mins now lm : ℕ) :
    ((checkLimit 0 vals cap en cur mins now lm).1 = false ↔ vals 0 ≤ cap / 1000)
    ∧ ((checkLimit 1 vals cap en cur mins now lm).1 = false ↔ vals 1 ≤ en / 1000) := by
  have h0 : checkLimit 0 vals cap en cur mins now lm
      = (if vals 0 ≤ cap / 1000 then false else true, lm) := rfl
  have h1 : checkLimit 1 vals cap en cur mins now lm
      = (if vals 1 ≤ en / 1000 then false else true, lm) := rfl
  rw [h0, h1]
  constructor <;> · dsimp only; split <;> simp_all

/-- C2: for the mA (current-droop) kind while charging: a cycle with
`current >= limit_val[2]` re-arms the dwell deadline to `nowmillis + 5000`
and never stops; a cycle with `current < limit_val[2]` leaves the deadline
alone and stops exactly when `nowmillis` exceeds the armed deadline, so a
below-threshold cycle with `nowmillis` still at or before the deadline
never stops charging. -/
theorem C2_mA_dwell (vals : ℕ → ℕ) (cap en cur mins now lm : ℕ) :
    (vals 2 ≤ cur →
      checkLimit 2 vals cap en cur mins now lm = (true, (now + 5000) % U32))
    ∧ (cur < vals 2 →
      (checkLimit 2 vals cap en cur mins now lm).2 = lm
      ∧ ((checkLimit 2 vals cap en cur mins now lm).1 = false ↔ lm < now))
    ∧ (cur < vals 2 → now ≤ lm →
      (checkLimit 2 vals cap en cur mins now lm).1 = true) := by
  have hck : checkLimit 2 vals cap en cur mins now lm
      = if cur < vals 2 then ((if lm < now then false else true), lm)
        else (true, (now + 5000) % U32) := rfl
  refine ⟨?_, ?_, ?_⟩
  · intro h
    rw [hck, if_neg (by omega)]
  · intro h
    rw [hck, if_pos h]
    refine ⟨rfl, ?_⟩
    dsimp only
    split <;> simp_all
  · intro h hle
    rw [hck, if_pos h]
    dsimp only
    rw [if_neg (by omega)]

/-- Witness for C2: with `limit_value = 200`, a cycle at 250 mA re-arms
the deadline, and a single cycle at 150 mA with `now = 1000` not past the
deadline 6000 does not stop charging. -/
theorem C2_mA_dwell_witness :
    checkLimit 2 (fun _ => 200) 0 0 250 0 7000 1000 = (true, (7000 + 5000) % U32)
    ∧ (checkLimit 2 (fun _ => 200) 0 0 150 0 1000 6000).1 = true := by
  have h := C2_mA_dwell (fun _ => 200) 0 0 250 0 7000 1000
  have h2 := C2_mA_dwell (fun _ => 200) 0 0 150 0 1000 6000
  exact ⟨h.1 (by decide), h2.2.2 (by decide) (by decide)⟩

/-- C6 counterexample: at `chargetime = 65536000` ms the `uint16_t`
variable `seconds` wraps (`65536000 / 1000 = 65536 ≡ 0 mod 2^16`) before
the 35999 saturation, so with the min kind and `limit_value = 590` the
code keeps charging even though the claim's saturated minute count
`min(chargetime/1000, 35999) / 60 = 599` has reached the limit. -/
theorem C6_counterexample :
    (checkLimit 3 (fun _ => 590) 0 0 0 (minutesOf 65536000) 0 0).1 = true
    ∧ 590 ≤ Nat.min (65536000 / 1000) 35999 / 60 := by
  decide

/-- C6 amended: charging stops exactly when the minute count computed by
the code (`chargetime / 1000` truncated to 16 bits, then saturated at
35999, then divided by 60) reaches `limit_val[3]`; below
`chargetime = 65536000` ms this agrees with the claim's saturate-then-
divide description, and for every limit value within the configured
bounds [10, 590] the stop is reachable, at `chargetime = 60000 * limit`. -/
theorem C6_minutes_stop (vals : ℕ → ℕ) (cap en cur ct now lm : ℕ) :
    ((checkLimit 3 vals cap en cur (minutesOf ct) now lm).1 = false
      ↔ vals 3 ≤ minutesOf ct)
    ∧ (ct < 65536000 → minutesOf ct = Nat.min (ct / 1000) 35999 / 60)
    ∧ (∀ L, 10 ≤ L → L ≤ 590 → vals 3 = L →
        (checkLimit 3 vals cap en cur (minutesOf (60000 * L)) now lm).1 = false) := by
  refine ⟨?_, ?_, ?_⟩
  · have h3 : checkLimit 3 vals cap en cur (minutesOf ct) now lm
        = (if vals 3 ≤ minutesOf ct then false else true, lm) := rfl
    rw [h3]
    dsimp only
    split <;> simp_all
  · intro h
    simp only [minutesOf, secondsOf, U16, Nat.min_def]
    split_ifs <;> omega
  · intro L hL1 hL2 hv
    have hm : minutesOf (60000 * L) = L := by
      have hq : 60000 * L / 1000 = 60 * L := by omega
      have h60 : 60 * L % 65536 = 60 * L := Nat.mod_eq_of_lt (by omega)
      simp only [minutesOf, secondsOf, U16, hq, h60]
      split_ifs <;> omega
    have h3 : checkLimit 3 vals cap en cur (minutesOf (60000 * L)) now lm
        = (if vals 3 ≤ minutesOf (60000 * L) then false else true, lm) := rfl
    rw [h3]
    dsimp only
    rw [if_pos (by rw [hm, hv])]

/-- Witness for C6 at `limit_value = 180`: the agreement below the wrap
point at `chargetime = 123456` ms, and the reachable stop at
`chargetime = 60000 * 180` ms. -/
theorem C6_minutes_stop_witness :
    minutesOf 123456 = Nat.min (123456 / 1000) 35999 / 60
    ∧ (checkLimit 3 (fun _ => 180) 0 0 0 (minutesOf (60000 * 180)) 0 0).1 = false := by
  have h := C6_minutes_stop (fun _ => 180) 0 0 0 123456 0 0
  exact ⟨h.2.1 (by decide), h.2.2 180 (by decide) (by decide) rfl⟩

/-- C1 counterexample: `power` is stored in a `uint16_t`, so at
`voltage = 10000` mV, `current = 6554` mA the product
`voltage * current / 1000 = 65540` wraps to 4, and an integration step
with `elapsed = 3600` ms adds 4 uWh, not the 65540 uWh the claim's
untruncated formula `elapsed * (voltage * current / 1000) / 3600`
computes. -/
theorem C1_counterexample :
    ¬ (integrate 10000 6554 3600 true ⟨0, 0, 0⟩).energy
        = 0 + 3600 * (10000 * 6554 / 1000) / 3600 := by
  decide

/-- C1 amended: the per-cycle update follows the claim's truncating
formulas with `power` additionally reduced modulo 2^16 (its `uint16_t`
storage) and all 32-bit arithmetic modulo 2^32; whenever
`voltage * current / 1000` fits in 16 bits and no 32-bit product or sum
overflows, the updates are exactly `capacity += elapsed * current / 3600`
and `energy += elapsed * (voltage * current / 1000) / 3600`; and for
every state a step with `elapsed = 1`, `current = 1` adds exactly 0 to
`capacity`. -/
theorem C1_integration_formulas (v c e : ℕ) (chg : Bool) (t : Totals)
    (hcap : t.capacity < U32) :
    (v * c / 1000 < U16 → e * c < U32 → e * (v * c / 1000) < U32 →
      t.capacity + e * c / 3600 < U32 → t.energy + e * (v * c / 1000) / 3600 < U32 →
      power_mW v c = v * c / 1000
      ∧ (integrate v c e chg t).capacity = t.capacity + e * c / 3600
      ∧ (integrate v c e chg t).energy = t.energy + e * (v * c / 1000) / 3600)
    ∧ (integrate v 1 1 chg t).capacity = t.capacity := by
  constructor
  · intro h1 h2 h3 h4 h5
    have hpw : power_mW v c = v * c / 1000 := by
      simp only [power_mW, U16] at h1 ⊢
      omega
    refine ⟨hpw, ?_, ?_⟩
    · simp only [integrate, U32] at h2 h4 ⊢
      omega
    · simp only [integrate, hpw, U32] at h3 h5 ⊢
      omega
  · simp only [integrate, U32] at hcap ⊢
    omega

/-- Witness for C1 at the spec's lossless example: `voltage = 5000` mV,
`current = 1000` mA, `elapsed = 3600` ms adds exactly 1000 uAh and
5000 uWh, and the elapsed=1, current=1 step adds 0 uAh. -/
theorem C1_integration_formulas_witness :
    ((integrate 5000 1000 3600 true ⟨0, 0, 0⟩).capacity = 0 + 3600 * 1000 / 3600
      ∧ (integrate 5000 1000 3600 true ⟨0, 0, 0⟩).energy
        = 0 + 3600 * (5000 * 1000 / 1000) / 3600)
    ∧ (integrate 7 1 1 true ⟨0, 0, 0⟩).capacity = 0 := by
  have h := C1_integration_formulas 5000 1000 3600 true ⟨0, 0, 0⟩ (by decide)
  have h7 := C1_integration_formulas 7 1000 3600 true ⟨0, 0, 0⟩ (by decide)
  have hmain := h.1 (by decide) (by decide) (by decide) (by decide) (by decide)
  exact ⟨⟨hmain.2.1, hmain.2.2⟩, h7.2⟩

/-- Helper for the C4 counterexample: with `voltage = 0`, `current = 1`
and `interval = 4294967295` every step adds
`4294967295 / 3600 = 1193046` uAh modulo 2^32, so after `n` steps from
zero the capacity is `n * 1193046 % 2^32`. -/
theorem capacity_iterate_closed_form (n : ℕ) :
    ((fun t => integrate 0 1 4294967295 true t)^[n] ⟨0, 0, 0⟩).capacity
      = n * 1193046 % U32 := by
  induction n with
  | zero => simp [U32]
  | succ n ih =>
    rw [Function.iterate_succ_apply']
    show (integrate 0 1 4294967295 true
      ((fun t => integrate 0 1 4294967295 true t)^[n] ⟨0, 0, 0⟩)).capacity
        = (n + 1) * 1193046 % U32
    have hstep : ∀ s : Totals, (integrate 0 1 4294967295 true s).capacity
        = (s.capacity + 1193046) % U32 := by
      intro s
      simp [integrate, U32]
    rw [hstep, ih]
    simp only [U32]
    omega

/-- C4 counterexample: the `uint32_t` accumulator wraps, so capacity is
not non-decreasing over every sequence of integration steps: after 3601
maximal steps from zero it has wrapped below its value after 3600 steps
(1191350 < 4294965600). -/
theorem C4_counterexample :
    ((fun t => integrate 0 1 4294967295 true t)^[3601] ⟨0, 0, 0⟩).capacity
      < ((fun t => integrate 0 1 4294967295 true t)^[3600] ⟨0, 0, 0⟩).capacity := by
  rw [capacity_iterate_closed_form, capacity_iterate_closed_form]
  decide

/-- C4 amended: each integration step adds a non-negative amount to
`capacity` and `energy` — so both are non-decreasing — as long as the
32-bit accumulator does not wrap (the new sum stays below 2^32); and a
step with `is_charging = false` always leaves `chargetime` unchanged. -/
theorem C4_monotonicity (v c e : ℕ) (chg : Bool) (t : Totals) :
    (t.capacity + e * c % U32 / 3600 < U32 →
      t.capacity ≤ (integrate v c e chg t).capacity)
    ∧ (t.energy + e * power_mW v c % U32 / 3600 < U32 →
      t.energy ≤ (integrate v c e chg t).energy)
    ∧ (integrate v c e false t).chargetime = t.chargetime := by
  refine ⟨?_, ?_, ?_⟩
  · intro h
    simp only [integrate, U32] at h ⊢
    omega
  · intro h
    simp only [integrate, U32] at h ⊢
    omega
  · simp [integrate]

/-- Witness for C4 at `voltage = 5000` mV, `current = 1000` mA,
`elapsed = 3600` ms from the zero state, with charging off. -/
theorem C4_monotonicity_witness :
    ((⟨0, 0, 0⟩ : Totals).capacity ≤ (integrate 5000 1000 3600 false ⟨0, 0, 0⟩).capacity)
    ∧ (integrate 5000 1000 3600 false ⟨0, 0, 0⟩).chargetime
      = (⟨0, 0, 0⟩ : Totals).chargetime := by
  have h := C4_monotonicity 5000 1000 3600 false ⟨0, 0, 0⟩
  exact ⟨h.1 (by decide), h.2.2⟩

/-- The stored defaults satisfy the limit-value invariant for each of
the four limit kinds. -/
theorem goodVal_default (k : ℕ) (hk : k < 4) : goodVal k (limit_val0 k) := by
  interval_cases k <;>
    · simp only [goodVal, limit_val0, limit_min, limit_max, limit_inc]
      decide

/-- For values within the kind's maximum the `uint16_t` addition of an
INCREASE never wraps. -/
theorem adjInc_no_wrap (k : ℕ) (hk : k < 4) (v : ℕ) (hv : v ≤ limit_max k) :
    adjInc k v = if v < limit_max k then v + limit_inc k else v := by
  interval_cases k <;>
    · simp only [adjInc, limit_max, limit_inc, U16]
      split_ifs <;> omega

/-- For values within the kind's bounds the `uint16_t` subtraction of a
DECREASE never wraps. -/
theorem adjDec_no_wrap (k : ℕ) (hk : k < 4) (v : ℕ) (hv : v ≤ limit_max k) :
    adjDec k v = if limit_min k < v then v - limit_inc k else v := by
  interval_cases k <;>
    · simp only [adjDec, limit_min, limit_max, limit_inc, U16] at hv ⊢
      split_ifs <;> omega

/-- Every single INCREASE/DECREASE step preserves the limit-value
invariant. -/
theorem goodVal_adjust (k : ℕ) (hk : k < 4) (e : Adj) (v : ℕ) (h : goodVal k v) :
    goodVal k (adjust k e v) := by
  cases e with
  | inc =>
    have hr : adjust k Adj.inc v = if v < limit_max k then v + limit_inc k else v :=
      adjInc_no_wrap k hk v h.2.1
    rw [hr]
    interval_cases k <;>
      · simp only [goodVal, limit_min, limit_max, limit_inc] at h ⊢
        split_ifs <;> omega
  | dec =>
    have hr : adjust k Adj.dec v = if limit_min k < v then v - limit_inc k else v :=
      adjDec_no_wrap k hk v h.2.1
    rw [hr]
    interval_cases k <;>
      · simp only [goodVal, limit_min, limit_max, limit_inc] at h ⊢
        split_ifs <;> omega

/-- Folding any event sequence from an invariant-satisfying value keeps
the invariant. -/
theorem goodVal_foldl (k : ℕ) (hk : k < 4) (evs : List Adj) (v : ℕ) (h : goodVal k v) :
    goodVal k (evs.foldl (fun v e => adjust k e v) v) := by
  induction evs generalizing v with
  | nil => simpa using h
  | cons e es ih =>
    rw [List.foldl_cons]
    exact ih (adjust k e v) (goodVal_adjust k hk e v h)

/-- On an invariant-satisfying value, an INCREASE that changes the value
adds exactly the step, and a DECREASE that changes it subtracts exactly
the step. -/
theorem adjust_effective (k : ℕ) (hk : k < 4) (v : ℕ) (h : goodVal k v) :
    (adjInc k v ≠ v → adjInc k v = v + limit_inc k)
    ∧ (adjDec k v ≠ v → adjDec k v + limit_inc k = v) := by
  rw [adjInc_no_wrap k hk v h.2.1, adjDec_no_wrap k hk v h.2.1]
  interval_cases k <;>
    · simp only [goodVal, limit_min, limit_max, limit_inc] at h ⊢
      split_ifs <;> omega

/-- An INCREASE at the maximum is a no-op. -/
theorem adjInc_max (k : ℕ) : adjInc k (limit_max k) = limit_max k := by
  simp [adjInc]

/-- Any number of INCREASE events starting at the maximum leave the
value at the maximum. -/
theorem foldl_replicate_adjInc_max (k n : ℕ) :
    (List.replicate n Adj.inc).foldl (fun v e => adjust k e v) (limit_max k)
      = limit_max k := by
  induction n with
  | zero => rfl
  | succ n ih =>
    rw [List.replicate_succ, List.foldl_cons]
    rw [show adjust k Adj.inc (limit_max k) = limit_max k from adjInc_max k]
    exact ih

/-- C3: for every limit kind and event sequence from the stored
defaults, the active value stays within [minimum, maximum] (hence before
and after every adjustment), every effective adjustment changes the
value by exactly the kind's step, and any run of further INCREASE events
stays within the bound and leaves a maximal value pinned at the
maximum. -/
theorem C3_clamp_law (k : ℕ) (hk : k < 4) (evs : List Adj) :
    (limit_min k ≤ applyAdjs k evs ∧ applyAdjs k evs ≤ limit_max k)
    ∧ (∀ e, adjust k e (applyAdjs k evs) ≠ applyAdjs k evs →
        adjust k e (applyAdjs k evs) = applyAdjs k evs + limit_inc k
        ∨ adjust k e (applyAdjs k evs) + limit_inc k = applyAdjs k evs)
    ∧ (∀ n, applyAdjs k (evs ++ List.replicate n Adj.inc) ≤ limit_max k
        ∧ (applyAdjs k evs = limit_max k →
          applyAdjs k (evs ++ List.replicate n Adj.inc) = limit_max k)) := by
  have hg : goodVal k (applyAdjs k evs) :=
    goodVal_foldl k hk evs (limit_val0 k) (goodVal_default k hk)
  refine ⟨⟨hg.1, hg.2.1⟩, ?_, ?_⟩
  · intro e he
    cases e with
    | inc => exact Or.inl ((adjust_effective k hk (applyAdjs k evs) hg).1 he)
    | dec => exact Or.inr ((adjust_effective k hk (applyAdjs k evs) hg).2 he)
  · intro n
    have hg2 : goodVal k (applyAdjs k (evs ++ List.replicate n Adj.inc)) :=
      goodVal_foldl k hk (evs ++ List.replicate n Adj.inc) (limit_val0 k)
        (goodVal_default k hk)
    refine ⟨hg2.2.1, ?_⟩
    intro hmax
    show (evs ++ List.replicate n Adj.inc).foldl (fun v e => adjust k e v) (limit_val0 k)
      = limit_max k
    rw [List.foldl_append]
    have hfold : evs.foldl (fun v e => adjust k e v) (limit_val0 k) = limit_max k := hmax
    rw [hfold]
    exact foldl_replicate_adjInc_max k n

/-- Witness for C3 at the mAh kind from its default 3000: in bounds, one
effective INCREASE adds exactly 100, and further INCREASE events stay
within the maximum. -/
theorem C3_clamp_law_witness :
    (limit_min 0 ≤ applyAdjs 0 [] ∧ applyAdjs 0 [] ≤ limit_max 0)
    ∧ adjust 0 Adj.inc (applyAdjs 0 []) = applyAdjs 0 [] + limit_inc 0
    ∧ applyAdjs 0 ([] ++ List.replicate 3 Adj.inc) ≤ limit_max 0 := by
  have h := C3_clamp_law 0 (by decide) []
  refine ⟨h.1, ?_, (h.2.2 3).1⟩
  rcases h.2.1 Adj.inc (by decide) with he | he
  · exact he
  · exact absurd he (by decide)

/-- The button handler always records the current reading in
`lastbutton` (line 618). -/
theorem buttonStep_lastbutton (now b : ℕ) (s : LoopState) :
    (buttonStep now b s).lastbutton = b := rfl

/-- A SELECT reading identical to the previous cycle's reading leaves
the whole state unchanged (the edge filter of line 592). -/
theorem select_held (now : ℕ) (s : LoopState) (h : s.lastbutton = KEY_SELECT) :
    buttonStep now KEY_SELECT s = s := by
  obtain ⟨li, sv, ch, vv, lb, lm, en⟩ := s
  simp only [KEY_SELECT] at h
  subst h
  simp [buttonStep, KEY_SELECT]

/-- An INC reading while paused performs one clamped adjustment of the
active limit value and records the reading. -/
theorem inc_step (now : ℕ) (s : LoopState) (h : s.isCharging = false) :
    buttonStep now KEY_INC s =
      { s with vals := Function.update s.vals s.limit (adjInc s.limit (s.vals s.limit)),
               lastbutton := KEY_INC } := by
  simp [buttonStep, KEY_SELECT, KEY_INC, h]

/-- Holding INC for `n` cycles while paused leaves the selected kind and
the charging flag alone and applies `n` clamped adjustments to the
active limit value. -/
theorem inc_iterate (now : ℕ) (s : LoopState) (h : s.isCharging = false) (n : ℕ) :
    ((buttonStep now KEY_INC)^[n] s).isCharging = false
    ∧ ((buttonStep now KEY_INC)^[n] s).limit = s.limit
    ∧ ((buttonStep now KEY_INC)^[n] s).vals s.limit
      = (adjInc s.limit)^[n] (s.vals s.limit) := by
  induction n with
  | zero => exact ⟨h, rfl, rfl⟩
  | succ n ih =>
    rw [Function.iterate_succ_apply', Function.iterate_succ_apply']
    obtain ⟨ih1, ih2, ih3⟩ := ih
    rw [inc_step now _ ih1]
    refine ⟨ih1, ih2, ?_⟩
    dsimp only
    rw [ih2, Function.update_same]
    exact congrArg (adjInc s.limit) ih3

/-- C7: SELECT is edge-triggered while INCREASE is level-triggered.
Starting from a state whose previous reading was not SELECT (with the
kind and display selections in range), holding SELECT for 5 cycles
advances the selection exactly once — the selected kind `(limit+1) mod 4`
while paused, the display mode `(showValue+1) mod 3` while charging —
already on the first cycle, with no further change on cycles 2-5;
holding INCREASE for 5 cycles while paused applies the clamped
adjustment on every one of the 5 cycles. -/
theorem C7_edge_level_buttons (now : ℕ) (s : LoopState)
    (hlb : s.lastbutton ≠ KEY_SELECT) (hli : s.limit ≤ 3) (hsv : s.showValue ≤ 2) :
    (s.isCharging = false →
      ((buttonStep now KEY_SELECT)^[5] s).limit = (s.limit + 1) % 4
      ∧ ((buttonStep now KEY_SELECT)^[5] s).limit = (buttonStep now KEY_SELECT s).limit
      ∧ ((buttonStep now KEY_SELECT)^[5] s).showValue = s.showValue)
    ∧ (s.isCharging = true →
      ((buttonStep now KEY_SELECT)^[5] s).showValue = (s.showValue + 1) % 3
      ∧ ((buttonStep now KEY_SELECT)^[5] s).showValue
        = (buttonStep now KEY_SELECT s).showValue
      ∧ ((buttonStep now KEY_SELECT)^[5] s).limit = s.limit)
    ∧ (s.isCharging = false →
      ((buttonStep now KEY_INC)^[5] s).vals s.limit
        = (adjInc s.limit)^[5] (s.vals s.limit)) := by
  have h5 : (buttonStep now KEY_SELECT)^[5] s = buttonStep now KEY_SELECT s := by
    have h1 : buttonStep now KEY_SELECT (buttonStep now KEY_SELECT s)
        = buttonStep now KEY_SELECT s :=
      select_held now _ (buttonStep_lastbutton now KEY_SELECT s)
    show (buttonStep now KEY_SELECT)^[4 + 1] s = _
    rw [Function.iterate_add_apply, Function.iterate_one]
    exact Function.iterate_fixed h1 4
  have hsel : ¬ KEY_SELECT = s.lastbutton := fun hh => hlb hh.symm
  refine ⟨?_, ?_, ?_⟩
  · intro hc
    rw [h5]
    refine ⟨?_, rfl, ?_⟩
    · simp [buttonStep, hsel, hc]
      split_ifs <;> omega
    · simp [buttonStep, hsel, hc]
      omega
  · intro hc
    rw [h5]
    refine ⟨?_, rfl, ?_⟩
    · simp [buttonStep, hsel, hc]
      split_ifs <;> omega
    · simp [buttonStep, hsel, hc]
      omega
  · intro hc
    exact (inc_iterate now s hc 5).2.2

/-- Witness for C7 at the concrete startup state: 5 held SELECT cycles
advance the kind once (to 1), and 5 held INC cycles on the mAh kind take
the value from 3000 to 3500. -/
theorem C7_edge_level_buttons_witness :
    ((buttonStep 0 KEY_SELECT)^[5] demoState).limit = 1
    ∧ ((buttonStep 0 KEY_INC)^[5] demoState).vals demoState.limit
      = (adjInc demoState.limit)^[5] (demoState.vals demoState.limit)
    ∧ ((buttonStep 0 KEY_INC)^[5] demoState).vals 0 = 3500 := by
  have h := C7_edge_level_buttons 0 demoState (by decide) (by decide) (by decide)
  have h1 := (h.1 rfl).1
  have h3 := h.2.2 rfl
  refine ⟨h1.trans (by decide), h3, h3.trans (by decide)⟩

/-- C9: on settings load, a missing/invalid identifier makes the core
keep the built-in defaults for the limit values, the selected kind and
the display mode, and immediately persist them together with the
identifier; a matching identifier makes it load all three from the
store; both branches are ordinary returns (never fatal). -/
theorem C9_settings_load (g : Settings) (e : Eeprom) :
    (e.ident ≠ EEPROM_IDENT → g = defaultSettings →
      EEPROM_get g e
        = (defaultSettings,
          { ident := EEPROM_IDENT, vals := limit_val0, limit := 0, showValue := 0 }))
    ∧ (e.ident = EEPROM_IDENT →
      EEPROM_get g e
        = ({ vals := e.vals, limit := e.limit, showValue := e.showValue }, e)) := by
  constructor
  · intro hne hg
    subst hg
    simp only [EEPROM_get]
    rw [if_neg hne]
    rfl
  · intro heq
    simp only [EEPROM_get]
    rw [if_pos heq]

/-- Witness for C9: a blank store (identifier 0) is reinitialised and
persisted with the defaults; a store with the correct identifier is
loaded verbatim. -/
theorem C9_settings_load_witness :
    EEPROM_get defaultSettings ⟨0, fun _ => 7, 9, 9⟩
      = (defaultSettings,
        { ident := EEPROM_IDENT, vals := limit_val0, limit := 0, showValue := 0 })
    ∧ EEPROM_get defaultSettings ⟨EEPROM_IDENT, fun _ => 7, 1, 2⟩
      = ({ vals := fun _ => 7, limit := 1, showValue := 2 },
        ⟨EEPROM_IDENT, fun _ => 7, 1, 2⟩) := by
  have h1 := C9_settings_load defaultSettings ⟨0, fun _ => 7, 9, 9⟩
  have h2 := C9_settings_load defaultSettings ⟨EEPROM_IDENT, fun _ => 7, 1, 2⟩
  exact ⟨h1.1 (by decide) rfl, h2.2 rfl⟩

end PhoneChargeGuard
